import Mathlib

/-!
Shallow embedding of the Go logging package (src/log.go together with the
unnamed parts, of which part_002 is the authoritative package source for the
claims: it is the variant with Field support).

Modeling conventions:
  - Go interface values handed to the variadic loggers are either a pointer
    to a Field or an arbitrary plain value; a plain value is carried as the
    String that the default Go rendering (the v verb of the fmt package)
    produces for it, since the package only ever observes plain values
    through that rendering.
  - Mutable package globals (minPriority, gitVersion, buildVersion) become
    an explicit Env record or explicit state threading.
  - The sink (io.Writer) becomes the String of bytes written so far; a
    write appends.
  - Runtime introspection (runtime.Stack for the goroutine id and
    runtime.Caller for the caller frame) is external input and is passed in
    as data: bufList is the whitespace-split stack header, caller is the
    frame lookup result (none when the stack cannot be unwound to the
    requested depth).
  - Color functions from the external color package are modeled as the
    identity, matching the plain-text degradation the spec requires when
    color output is disabled.
-/

namespace Logging

/-- Level from the source: a priority and a display name (the colorFunc
field of the Go struct is dropped: colors are modeled as the identity). -/
structure Level where
  priority : Int
  name : String
deriving DecidableEq

/-- The fatal entry of the fixed level registry. -/
def levelFatal : Level := ⟨5, "Fatal"⟩

/-- The error entry of the fixed level registry. -/
def levelError : Level := ⟨4, "Error"⟩

/-- The warn entry of the fixed level registry. -/
def levelWarn : Level := ⟨3, "Warn"⟩

/-- The notice entry of the fixed level registry. -/
def levelNotice : Level := ⟨2, "Notice"⟩

/-- The info entry of the fixed level registry. -/
def levelInfo : Level := ⟨1, "Info"⟩

/-- The debug entry of the fixed level registry. -/
def levelDebug : Level := ⟨0, "Debug"⟩

/-- The six severities of the registry. -/
def levels : List Level :=
  [levelDebug, levelInfo, levelNotice, levelWarn, levelError, levelFatal]

/-- Initial value of the package global minPriority: the Go zero value of
an int variable declared without an initializer. -/
def minPriorityInit : Int := 0

/-- SetMinLevel from the source: a switch on the six display names; every
branch assigns the priority of the matched level, the fall-through after
the switch assigns the debug priority. The function returns the new value
of the minPriority global. -/
def SetMinLevel (minLevel : String) : Int :=
  if minLevel = levelFatal.name then levelFatal.priority
  else if minLevel = levelError.name then levelError.priority
  else if minLevel = levelWarn.name then levelWarn.priority
  else if minLevel = levelNotice.name then levelNotice.priority
  else if minLevel = levelInfo.name then levelInfo.priority
  else if minLevel = levelDebug.name then levelDebug.priority
  else levelDebug.priority

/-- State reached by the minPriority global after a sequence of
SetMinLevel calls starting from init (each call overwrites the state
regardless of the previous value, as in the source). -/
def runMinLevel (init : Int) (calls : List String) : Int :=
  calls.foldl (fun _ call => SetMinLevel call) init

/-- Field from the source: a map from string keys to values plus the key
list recording insertion order. The Go map is modeled as an association
list; values are carried as their default rendering (see the module
comment). -/
structure Field where
  values : List (String × String)
  keys : List String
deriving DecidableEq

/-- Field.Sprint from the source: for each key in the key list, render
key(value) when the map has the key (the color function on the key is the
identity here), and the bare key otherwise. -/
def Field.Sprint (f : Field) : List String :=
  f.keys.map (fun key =>
    match f.values.lookup key with
    | none => key
    | some v => key ++ "(" ++ v ++ ")")

/-- Field.Add from the source: overwrite is disallowed, so when the key
already exists the receiver is returned unchanged; otherwise the key is
appended to the key list and the pair is inserted into the map. -/
def Field.Add (f : Field) (key : String) (value : String) : Field :=
  if (f.values.lookup key).isSome then f
  else { values := f.values ++ [(key, value)], keys := f.keys ++ [key] }

/-- A variadic argument of the loggers: either a plain value (carried as
its default rendering) or a pointer to a Field. -/
inductive Val where
  | str (s : String)
  | field (f : Field)
deriving DecidableEq

/-- The type switch of the source: true exactly on Field arguments. -/
def Val.isField : Val → Bool
  | .field _ => true
  | .str _ => false

/-- Default rendering of an argument. For a plain value this is the
rendering it carries. The field branch is unreachable in this development
(sprintf only renders arguments strictly before the first Field), so it
returns a fixed placeholder. -/
def Val.render : Val → String
  | .str s => s
  | .field _ => "&Field"

/-- sprint from the source: Field arguments are expanded through
Field.Sprint into the translated list and other arguments pass through;
the formed list interleaves each token with the separator; the final
Sprint drops the trailing separator when the formed list is nonempty.
Since every other operand of the final Sprint is a string, the fmt package
inserts no extra spaces and the result is plain concatenation. -/
def sprint (valueList : List Val) : String :=
  let translatedList := valueList.flatMap (fun value =>
    match value with
    | .field f => f.Sprint
    | .str s => [s])
  let formedList := translatedList.flatMap (fun value => [value, ", "])
  String.join (formedList.take (formedList.length - 1))

/-- Modeled from the documented behavior of Sprintf in the Go fmt package,
an external standard library collaborator, restricted to the fragment the
embedding can observe: every argument is rendered by its carried default
rendering (so the s and v verbs on such an argument yield exactly that
rendering). A doubled percent emits a literal percent; a verb with no
argument left emits a MISSING annotation; a percent ending the format
emits a NOVERB annotation; arguments left over when the format is
exhausted are reported in a trailing EXTRA annotation whose entries carry
the string type tag.

goExtra renders the trailing EXTRA annotation of the Sprintf model for the
arguments left over once the format is exhausted. -/
def goExtra : List String → String
  | [] => ""
  | arg :: rest =>
      "%!(EXTRA " ++
        String.intercalate ", " ((arg :: rest).map (fun s => "string=" ++ s)) ++ ")"

/-- Core loop of the Sprintf model over the character list of the format. -/
def goFormat : List Char → List String → String
  | [], args => goExtra args
  | c :: cs, args =>
    if c = '%' then
      match cs with
      | [] => "%!(NOVERB)" ++ goExtra args
      | c2 :: cs2 =>
        if c2 = '%' then "%" ++ goFormat cs2 args
        else
          match args with
          | [] => "%!" ++ c2.toString ++ "(MISSING)" ++ goFormat cs2 []
          | arg :: rest => arg ++ goFormat cs2 rest
    else c.toString ++ goFormat cs args

/-- Sprintf of the Go fmt package over a format string. -/
def goSprintf (format : String) (args : List String) : String :=
  goFormat format.data args

/-- sprintf from the source: with no variadic arguments it returns the
result of Sprintf on the format alone; otherwise beginField is the index
of the first Field argument (the length when there is none), the elements
strictly before it are passed to Sprintf as the format arguments, and the
formatted result followed by the elements from beginField on is handed to
sprint. -/
def sprintf (format : String) (valueList : List Val) : String :=
  if valueList.length = 0 then
    goSprintf format []
  else
    let beginField := valueList.findIdx Val.isField
    let newList :=
      Val.str (goSprintf format ((valueList.take beginField).map Val.render)) ::
        valueList.drop beginField
    sprint newList

/-- Base from the Go filepath package (external collaborator): the last
element of the path after trailing slashes are removed; the empty path
gives a dot and an all-slash path gives a slash. -/
def baseName (path : String) : String :=
  if path = "" then "."
  else
    match ((path.splitOn "/").filter (fun s => s ≠ "")).getLast? with
    | none => "/"
    | some last => last

/-- Caller resolution block of printf: when runtime.Caller fails, the
function name and file fall back to the question-mark placeholder and the
line to minus one; on success the file is reduced to its base name. -/
def resolveCaller : Option (String × String × Int) → String × String × Int
  | none => ("???", "???", -1)
  | some (funcName, file, line) => (funcName, baseName file, line)

/-- Goroutine id block of printf: the second whitespace-separated field of
the stack header when it exists, the minus-one string otherwise. -/
def resolveGoID : List String → String
  | _ :: second :: _ => second
  | _ => "-1"

/-- The mutable package globals read by printf. -/
structure Env where
  minPriority : Int
  gitVersion : String
  buildVersion : String
deriving DecidableEq

/-- Body of the single line printf writes when the level passes the
filter, following the Fprintf format of the source up to its final newline
(all color functions the identity): level tag in brackets, space, the Go
tag, the goroutine id, a colon, the message (prefixed by one space exactly
when nonempty), space, the function name with parentheses, colon, file,
colon, line number, then the git and build metadata segment. -/
def lineBody (env : Env) (bufList : List String)
    (caller : Option (String × String × Int)) (lv : Level) (msg : String) :
    String :=
  let goID := resolveGoID bufList
  let c := resolveCaller caller
  let msg2 := if msg.length ≠ 0 then " " ++ msg else msg
  "[" ++ lv.name ++ "]" ++ " " ++ "Go" ++ goID ++ ":" ++ msg2 ++ " " ++
    c.1 ++ "()" ++ ":" ++ c.2.1 ++ ":" ++ toString c.2.2 ++
    " \x7bgit:" ++ env.gitVersion ++ ", build:" ++ env.buildVersion ++
    "\x7d"

/-- The full line printf writes: the body followed by the newline the
Fprintf format string ends with. -/
def lineChunk (env : Env) (bufList : List String)
    (caller : Option (String × String × Int)) (lv : Level) (msg : String) :
    String :=
  lineBody env bufList caller lv msg ++ "\n"

/-- printf from the source: nothing is written when the level priority is
strictly below the minPriority global; otherwise exactly one formatted
line is appended to the sink. The depth argument of the source only feeds
runtime.Caller, whose outcome is the caller argument here. -/
def printf (env : Env) (output : String) (bufList : List String)
    (caller : Option (String × String × Int)) (lv : Level) (msg : String) :
    String :=
  if lv.priority < env.minPriority then output
  else output ++ lineChunk env bufList caller lv msg

/-- The sink a logger owns: standard output or a replacement writer
installed through SetOutput (identified by a label). -/
inductive Sink where
  | stdout
  | writer (label : String)
deriving DecidableEq

/-- concreteLogger from the source: it owns only its output sink. -/
structure ConcreteLogger where
  output : Sink
deriving DecidableEq

/-- NewLogger from the source: allocates a logger (never nil, modeled by
some), points it at standard output and returns a nil error. -/
def NewLogger : Option ConcreteLogger × Option String :=
  (some { output := Sink.stdout }, none)

/-- The one-time initialization body of DefaultLogger: call NewLogger and
panic on a non-nil error (the panic is modeled as the error branch),
otherwise install the returned logger. -/
def defaultLoggerInit : Except String (Option ConcreteLogger) :=
  match NewLogger with
  | (lg, none) => .ok lg
  | (_, some err) => .error err

/-- Written from the spec words on plain compose, for comparison with the
source translation: the tokens are concatenated using a comma-space
separator, the trailing separator is stripped when the list is nonempty,
and the empty list gives the empty string. -/
def joinTokens : List String → String
  | [] => ""
  | [t] => t
  | t :: rest => t ++ ", " ++ joinTokens rest

/-- Written from the spec words on plain compose: each Field element is
expanded into its token sequence, every other element passes through
unchanged, and the combined tokens are joined. -/
def sprintSpec (valueList : List Val) : String :=
  joinTokens (valueList.flatMap (fun value =>
    match value with
    | .field f => f.Sprint
    | .str s => [s]))

/-- The arguments of the spec example for formatted compose. -/
def exampleArgs : List Val :=
  [Val.str "hello", Val.field ⟨[("k", "v")], ["k"]⟩]

/-- Number of newline bytes in a string; a written chunk is a single line
when it is a newline-free body followed by one newline. -/
def countNL (s : String) : Nat := s.data.countP (fun c => c == '\n')

/-- Substring containment, stated by explicit decomposition. -/
def containsSub (s t : String) : Prop := ∃ a b, s = a ++ (t ++ b)

theorem join_foldl (l : List String) : ∀ s : String,
    List.foldl (fun a b => a ++ b) s l = s ++ String.join l := by
  induction l with
  | nil =>
    intro s
    show s = s ++ ""
    rw [String.append_empty]
  | cons a l ih =>
    intro s
    have h1 : List.foldl (fun a b => a ++ b) s (a :: l) =
        List.foldl (fun a b => a ++ b) (s ++ a) l := rfl
    have h2 : String.join (a :: l) =
        List.foldl (fun a b => a ++ b) ("" ++ a) l := rfl
    rw [h1, ih (s ++ a), h2, ih ("" ++ a), String.empty_append,
      String.append_assoc]

theorem join_cons (a : String) (l : List String) :
    String.join (a :: l) = a ++ String.join l := by
  have h : String.join (a :: l) =
      List.foldl (fun x y => x ++ y) ("" ++ a) l := rfl
  rw [h, join_foldl, String.empty_append]

theorem formed_length (ts : List String) :
    (ts.flatMap (fun s => [s, ", "])).length = 2 * ts.length := by
  induction ts with
  | nil => rfl
  | cons t rest ih =>
    show ([t, ", "] ++ rest.flatMap (fun s => [s, ", "])).length = _
    rw [List.length_append, ih]
    simp
    omega

theorem join_formed (ts : List String) :
    String.join ((ts.flatMap (fun s => [s, ", "])).take
      ((ts.flatMap (fun s => [s, ", "])).length - 1)) = joinTokens ts := by
  induction ts with
  | nil => rfl
  | cons t rest ih =>
    cases rest with
    | nil => rfl
    | cons r rs =>
      have hlen : ((t :: r :: rs).flatMap (fun s => [s, ", "])).length - 1 =
          ((((r :: rs).flatMap (fun s => [s, ", "])).length - 1) + 1) + 1 := by
        rw [formed_length, formed_length]
        simp [List.length_cons]
        omega
      have hflat : (t :: r :: rs).flatMap (fun s => [s, ", "]) =
          t :: ", " :: (r :: rs).flatMap (fun s => [s, ", "]) := rfl
      rw [hflat] at hlen ⊢
      rw [hlen, List.take_succ_cons, List.take_succ_cons, join_cons, join_cons,
        ih]
      show _ = t ++ ", " ++ joinTokens (r :: rs)
      rw [String.append_assoc]

/-- C3: plain compose expands each Field element into its key(value) token
sequence in key insertion order, passes every non-Field element through
unchanged, joins all tokens with the comma-space separator with no
trailing separator, and produces the empty string when the combined token
list is empty. -/
theorem sprint_eq_sprintSpec :
    (∀ valueList : List Val, sprint valueList = sprintSpec valueList) ∧
      sprint [] = "" := by
  constructor
  · intro valueList
    exact join_formed (valueList.flatMap (fun value =>
      match value with
      | .field f => f.Sprint
      | .str s => [s]))
  · rfl

theorem take_findIdx_false (p : Val → Bool) (l : List Val) :
    ∀ v ∈ l.take (l.findIdx p), p v = false := by
  induction l with
  | nil =>
    intro v hv
    simp at hv
  | cons a l ih =>
    intro v hv
    rw [List.findIdx_cons] at hv
    cases hpa : p a with
    | true =>
      rw [hpa] at hv
      simp at hv
    | false =>
      rw [hpa] at hv
      simp only [cond_false, List.take_succ_cons, List.mem_cons] at hv
      rcases hv with rfl | hv
      · exact hpa
      · exact ih v hv

theorem drop_findIdx_field (l : List Val) :
    l.findIdx Val.isField = l.length ∨
      ∃ f rest, l.drop (l.findIdx Val.isField) = Val.field f :: rest := by
  by_cases hex : ∃ v ∈ l, Val.isField v
  · right
    have hlt := List.findIdx_lt_length_of_exists hex
    have hget : Val.isField (l.get ⟨l.findIdx Val.isField, hlt⟩) = true :=
      List.findIdx_getElem (w := hlt)
    rcases hcase : l.get ⟨l.findIdx Val.isField, hlt⟩ with s | f
    · rw [hcase] at hget
      simp [Val.isField] at hget
    · exact ⟨f, l.drop (l.findIdx Val.isField + 1), by
        rw [List.drop_eq_get_cons hlt, hcase]⟩
  · left
    apply List.findIdx_eq_length.mpr
    intro v hv
    cases hiv : Val.isField v with
    | true => exact absurd ⟨v, hv, hiv⟩ hex
    | false => rfl

/-- C2: with a nonempty argument list, formatted compose applies the
format string to exactly the arguments strictly before the index of the
first Field (the list length when no Field exists) and hands the formatted
result followed by all arguments from the first Field on to plain compose;
the characterization of the split index is part of the statement: no
argument before it is a Field and the argument at it, when the index is
proper, is a Field. -/
theorem sprintf_split (format : String) (valueList : List Val)
    (h : valueList ≠ []) :
    sprintf format valueList =
      sprint (Val.str (goSprintf format
          ((valueList.take (valueList.findIdx Val.isField)).map Val.render)) ::
        valueList.drop (valueList.findIdx Val.isField)) ∧
    (∀ v ∈ valueList.take (valueList.findIdx Val.isField),
      v.isField = false) ∧
    (valueList.findIdx Val.isField = valueList.length ∨
      ∃ f rest, valueList.drop (valueList.findIdx Val.isField) =
        Val.field f :: rest) := by
  refine ⟨?_, take_findIdx_false Val.isField valueList,
    drop_findIdx_field valueList⟩
  have hlen : ¬valueList.length = 0 := by
    simpa [List.length_eq_zero] using h
  rw [sprintf, if_neg hlen]

/-- Witness for C2 at the spec example input. -/
theorem sprintf_split_witness :
    exampleArgs ≠ [] ∧
      (sprintf "%s" exampleArgs =
        sprint (Val.str (goSprintf "%s"
            ((exampleArgs.take (exampleArgs.findIdx Val.isField)).map
              Val.render)) ::
          exampleArgs.drop (exampleArgs.findIdx Val.isField)) ∧
      (∀ v ∈ exampleArgs.take (exampleArgs.findIdx Val.isField),
        v.isField = false) ∧
      (exampleArgs.findIdx Val.isField = exampleArgs.length ∨
        ∃ f rest, exampleArgs.drop (exampleArgs.findIdx Val.isField) =
          Val.field f :: rest)) :=
  ⟨by decide, sprintf_split "%s" exampleArgs (by decide)⟩

/-- C4: on a Field that does not yet hold the key, Add appends the key at
the end of the key list (insertion order preserved) and maps it to the
first value; a second Add with the same key returns the Field unchanged
(first write wins), so the rendered token for the key still reflects the
first value. -/
theorem field_add_first_write (f : Field) (k v1 v2 : String)
    (hv : f.values.lookup k = none) (hk : k ∉ f.keys) :
    (f.Add k v1).keys = f.keys ++ [k] ∧
    (f.Add k v1).values.lookup k = some v1 ∧
    (f.Add k v1).Add k v2 = f.Add k v1 ∧
    (f.Add k v1).Sprint = f.Sprint ++ [k ++ "(" ++ v1 ++ ")"] := by
  have hAdd : f.Add k v1 =
      { values := f.values ++ [(k, v1)], keys := f.keys ++ [k] } := by
    rw [Field.Add, if_neg]
    rw [hv]
    simp
  have hlook : (f.values ++ [(k, v1)]).lookup k = some v1 := by
    rw [List.lookup_append, hv, Option.none_or, List.lookup_cons_self]
  refine ⟨by rw [hAdd], by rw [hAdd]; exact hlook, ?_, ?_⟩
  · rw [hAdd, Field.Add, if_pos]
    show ((f.values ++ [(k, v1)]).lookup k).isSome = true
    rw [hlook]
    rfl
  · rw [hAdd, Field.Sprint, Field.Sprint]
    show (f.keys ++ [k]).map _ = _
    rw [List.map_append]
    congr 1
    · apply List.map_congr_left
      intro a ha
      have hne : (a == k) = false := by
        apply beq_false_of_ne
        intro e
        exact hk (e ▸ ha)
      have hone : ([(k, v1)] : List (String × String)).lookup a = none := by
        rw [List.lookup_cons, hne]
        rfl
      rw [List.lookup_append, hone, Option.or_none]
    · simp [hlook]

/-- Witness for C4 on the empty Field. -/
theorem field_add_first_write_witness :
    ((⟨[], []⟩ : Field).values.lookup "k" = none) ∧ ("k" ∉ (⟨[], []⟩ : Field).keys) ∧
      (((⟨[], []⟩ : Field).Add "k" "1").keys = (⟨[], []⟩ : Field).keys ++ ["k"] ∧
      ((⟨[], []⟩ : Field).Add "k" "1").values.lookup "k" = some "1" ∧
      (((⟨[], []⟩ : Field).Add "k" "1").Add "k" "2" = (⟨[], []⟩ : Field).Add "k" "1") ∧
      ((⟨[], []⟩ : Field).Add "k" "1").Sprint =
        (⟨[], []⟩ : Field).Sprint ++ ["k" ++ "(" ++ "1" ++ ")"]) :=
  ⟨by decide, by decide, field_add_first_write ⟨[], []⟩ "k" "1" "2" (by decide) (by decide)⟩

/-- C5: SetMinLevel maps each of the six display names to the priority of
that severity and maps every other string to the Debug priority zero; it
is a total function, so no error is ever signaled. -/
theorem setMinLevel_cases :
    SetMinLevel "Fatal" = 5 ∧ SetMinLevel "Error" = 4 ∧
    SetMinLevel "Warn" = 3 ∧ SetMinLevel "Notice" = 2 ∧
    SetMinLevel "Info" = 1 ∧ SetMinLevel "Debug" = 0 ∧
    ∀ s : String, s ≠ "Fatal" → s ≠ "Error" → s ≠ "Warn" → s ≠ "Notice" →
      s ≠ "Info" → s ≠ "Debug" → SetMinLevel s = 0 := by
  refine ⟨by decide, by decide, by decide, by decide, by decide, by decide, ?_⟩
  intro s h1 h2 h3 h4 h5 h6
  simp [SetMinLevel, levelFatal, levelError, levelWarn, levelNotice,
    levelInfo, levelDebug, h1, h2, h3, h4, h5, h6]

/-- Witness for C5 at an unrecognized name. -/
theorem setMinLevel_cases_witness :
    ("bogus" ≠ "Fatal") ∧ SetMinLevel "bogus" = 0 :=
  ⟨by decide, setMinLevel_cases.2.2.2.2.2.2 "bogus" (by decide) (by decide)
    (by decide) (by decide) (by decide) (by decide)⟩

theorem setMinLevel_range (s : String) :
    0 ≤ SetMinLevel s ∧ SetMinLevel s ≤ 5 := by
  rw [SetMinLevel]
  repeat' split
  all_goals decide

theorem runMinLevel_range (calls : List String) : ∀ init : Int,
    0 ≤ init → init ≤ 5 →
      0 ≤ runMinLevel init calls ∧ runMinLevel init calls ≤ 5 := by
  induction calls with
  | nil =>
    intro init h0 h5
    exact ⟨h0, h5⟩
  | cons c rest ih =>
    intro init h0 h5
    show 0 ≤ runMinLevel (SetMinLevel c) rest ∧
      runMinLevel (SetMinLevel c) rest ≤ 5
    exact ih (SetMinLevel c) (setMinLevel_range c).1 (setMinLevel_range c).2

/-- C10: the threshold starts at the Debug priority zero, below or equal
to every severity in the registry; after any sequence of SetMinLevel calls
it stays between zero and five, and with any such reachable threshold a
Fatal call always passes the filter and writes its line. -/
theorem threshold_invariant :
    minPriorityInit = 0 ∧
    (∀ lv ∈ levels, minPriorityInit ≤ lv.priority) ∧
    (∀ calls : List String,
      0 ≤ runMinLevel minPriorityInit calls ∧
        runMinLevel minPriorityInit calls ≤ 5) ∧
    (∀ (calls : List String) (git build output : String)
        (bufList : List String) (caller : Option (String × String × Int))
        (msg : String),
      printf ⟨runMinLevel minPriorityInit calls, git, build⟩ output bufList
          caller levelFatal msg =
        output ++ lineChunk ⟨runMinLevel minPriorityInit calls, git, build⟩
          bufList caller levelFatal msg) := by
  refine ⟨rfl, ?_, ?_, ?_⟩
  · intro lv hlv
    fin_cases hlv <;> decide
  · intro calls
    exact runMinLevel_range calls minPriorityInit (by decide) (by decide)
  · intro calls git build output bufList caller msg
    have hle := (runMinLevel_range calls minPriorityInit (by decide)
      (by decide)).2
    rw [printf, if_neg]
    show ¬levelFatal.priority < runMinLevel minPriorityInit calls
    rw [not_lt]
    exact le_trans hle (by decide)

/-- Witness for C10 on the registry membership hypothesis. -/
theorem threshold_invariant_witness :
    levelFatal ∈ levels ∧ minPriorityInit ≤ levelFatal.priority :=
  ⟨by decide, threshold_invariant.2.1 levelFatal (by decide)⟩

/-- C9: NewLogger returns a non-nil logger bound to standard output
together with a nil error, so the panic branch of the one-time
DefaultLogger initialization is unreachable and the initialization always
produces a logger. -/
theorem newLogger_ok :
    NewLogger = (some { output := Sink.stdout }, none) ∧
      defaultLoggerInit = Except.ok (some { output := Sink.stdout }) :=
  ⟨rfl, rfl⟩

/-- C6 counterexample: on the format consisting of the s verb, sprintf
with the empty argument list returns the missing-argument annotation of
the fmt package and not the format string itself. -/
theorem sprintf_empty_cex :
    sprintf "%s" [] = "%!s(MISSING)" ∧ sprintf "%s" [] ≠ "%s" := by
  constructor
  · rfl
  · decide

theorem goFormat_no_percent (cs : List Char) (h : '%' ∉ cs) :
    goFormat cs [] = String.mk cs := by
  induction cs with
  | nil => rfl
  | cons c cs ih =>
    have hc : ¬c = '%' := by
      intro e
      subst e
      exact h (List.mem_cons_self _ _)
    have hcs : '%' ∉ cs := fun m => h (List.mem_cons_of_mem c m)
    have hstep : goFormat (c :: cs) [] = c.toString ++ goFormat cs [] := by
      conv_lhs => rw [goFormat.eq_def]
      simp [hc]
    rw [hstep, ih hcs]
    apply String.ext
    rw [String.data_append]
    rfl

/-- C6 amended: sprintf with the empty variadic list returns Sprintf of
the format string with no arguments; whenever the format contains no
percent character this is the format string itself, unchanged and with no
trailing processing, but formats containing verbs receive
missing-argument annotations. -/
theorem sprintf_empty_amended (format : String) (h : '%' ∉ format.data) :
    sprintf format [] = format := by
  show goSprintf format [] = format
  rw [goSprintf, goFormat_no_percent format.data h]

/-- Witness for the amended C6 on a verb-free format. -/
theorem sprintf_empty_amended_witness :
    ('%' ∉ "abc".data) ∧ sprintf "abc" [] = "abc" :=
  ⟨by decide, sprintf_empty_amended "abc" (by decide)⟩

theorem countNL_append (a b : String) :
    countNL (a ++ b) = countNL a + countNL b := by
  simp only [countNL, String.data_append, List.countP_append]

theorem digitChar_ne_newline (n : Nat) : Nat.digitChar n ≠ '\n' := by
  rcases Nat.lt_or_ge n 16 with h | h
  · interval_cases n <;> decide
  · have h0 : ¬n = 0 := by omega
    have h1 : ¬n = 1 := by omega
    have h2 : ¬n = 2 := by omega
    have h3 : ¬n = 3 := by omega
    have h4 : ¬n = 4 := by omega
    have h5 : ¬n = 5 := by omega
    have h6 : ¬n = 6 := by omega
    have h7 : ¬n = 7 := by omega
    have h8 : ¬n = 8 := by omega
    have h9 : ¬n = 9 := by omega
    have h10 : ¬n = 10 := by omega
    have h11 : ¬n = 11 := by omega
    have h12 : ¬n = 12 := by omega
    have h13 : ¬n = 13 := by omega
    have h14 : ¬n = 14 := by omega
    have h15 : ¬n = 15 := by omega
    have hstar : Nat.digitChar n = Char.ofNat 42 := by
      simp [Nat.digitChar, h0, h1, h2, h3, h4, h5, h6, h7, h8, h9, h10,
        h11, h12, h13, h14, h15]
    rw [hstar]
    decide

theorem toDigitsCore_mem (b : Nat) : ∀ (fuel n : Nat) (ds : List Char),
    ∀ c ∈ Nat.toDigitsCore b fuel n ds, c ∈ ds ∨ ∃ m, c = Nat.digitChar m := by
  intro fuel
  induction fuel with
  | zero =>
    intro n ds c hc
    exact Or.inl hc
  | succ fuel ih =>
    intro n ds c hc
    simp only [Nat.toDigitsCore] at hc
    split at hc
    · rcases List.mem_cons.mp hc with rfl | hmem
      · exact Or.inr ⟨n % b, rfl⟩
      · exact Or.inl hmem
    · rcases ih (n / b) (Nat.digitChar (n % b) :: ds) c hc with hmem | hd
      · rcases List.mem_cons.mp hmem with rfl | hmem2
        · exact Or.inr ⟨n % b, rfl⟩
        · exact Or.inl hmem2
      · exact Or.inr hd

theorem countNL_natRepr (n : Nat) : countNL (Nat.repr n) = 0 := by
  have h : ∀ c ∈ Nat.toDigits 10 n, c ≠ '\n' := by
    intro c hc
    rcases toDigitsCore_mem 10 (n + 1) n [] c hc with hmem | ⟨m, rfl⟩
    · simp at hmem
    · exact digitChar_ne_newline m
  show (Nat.toDigits 10 n).countP (fun c => c == '\n') = 0
  rw [List.countP_eq_zero]
  intro c hc
  simpa using h c hc

theorem countNL_intRepr (i : Int) : countNL (toString i) = 0 := by
  cases i with
  | ofNat m => exact countNL_natRepr m
  | negSucc m =>
    show countNL ("-" ++ Nat.repr (m + 1)) = 0
    rw [countNL_append, countNL_natRepr]
    decide

theorem countNL_level_name {lv : Level} (h : lv ∈ levels) :
    countNL lv.name = 0 := by
  fin_cases h <;> decide

/-- C1: when the priority of the severity reaches the configured
threshold, a log call appends exactly one line to the sink (a newline-free
body followed by one newline) and that line contains the display name of
the severity; when the priority is strictly below the threshold the sink
is unchanged. The newline-freeness hypotheses on the message, goroutine
id, caller strings and build metadata make exactly-one-line meaningful. -/
theorem printf_filter (lv : Level) (env : Env) (output : String)
    (bufList : List String) (caller : Option (String × String × Int))
    (msg : String) (hlv : lv ∈ levels) (hmsg : countNL msg = 0)
    (hgo : countNL (resolveGoID bufList) = 0)
    (hfn : countNL (resolveCaller caller).1 = 0)
    (hfile : countNL (resolveCaller caller).2.1 = 0)
    (hgit : countNL env.gitVersion = 0)
    (hbuild : countNL env.buildVersion = 0) :
    (env.minPriority ≤ lv.priority →
      ∃ t, printf env output bufList caller lv msg = output ++ (t ++ "\n") ∧
        containsSub t lv.name ∧ countNL t = 0) ∧
    (lv.priority < env.minPriority →
      printf env output bufList caller lv msg = output) := by
  constructor
  · intro hpass
    refine ⟨lineBody env bufList caller lv msg, ?_, ?_, ?_⟩
    · rw [printf, if_neg (not_lt.mpr hpass)]
      rfl
    · refine ⟨"[", "]" ++ " " ++ "Go" ++ resolveGoID bufList ++ ":" ++
        (if msg.length ≠ 0 then " " ++ msg else msg) ++ " " ++
        (resolveCaller caller).1 ++ "()" ++ ":" ++
        (resolveCaller caller).2.1 ++ ":" ++
        toString (resolveCaller caller).2.2 ++ " \x7bgit:" ++
        env.gitVersion ++ ", build:" ++ env.buildVersion ++ "\x7d", ?_⟩
      apply String.ext
      simp [lineBody]
    · have hmsg2 : countNL (if msg.length ≠ 0 then " " ++ msg else msg) = 0 := by
        split
        · rw [countNL_append, hmsg]
          decide
        · exact hmsg
      simp only [lineBody, countNL_append, hmsg2, hgo, hfn, hfile, hgit,
        hbuild, countNL_intRepr, countNL_level_name hlv]
      decide
  · intro hlt
    rw [printf, if_pos hlt]

/-- Witness for C1 at the Fatal level with threshold zero. -/
theorem printf_filter_witness :
    levelFatal ∈ levels ∧ countNL "" = 0 ∧
      countNL (resolveGoID []) = 0 ∧
      countNL (resolveCaller none).1 = 0 ∧
      countNL (resolveCaller none).2.1 = 0 ∧
      (((⟨0, "", ""⟩ : Env).minPriority ≤ levelFatal.priority →
        ∃ t, printf ⟨0, "", ""⟩ "" [] none levelFatal "" =
            "" ++ (t ++ "\n") ∧
          containsSub t levelFatal.name ∧ countNL t = 0) ∧
      (levelFatal.priority < (⟨0, "", ""⟩ : Env).minPriority →
        printf ⟨0, "", ""⟩ "" [] none levelFatal "" = "")) :=
  ⟨by decide, by decide, by decide, by decide, by decide,
    printf_filter levelFatal ⟨0, "", ""⟩ "" [] none "" (by decide)
      (by decide) (by decide) (by decide) (by decide) (by decide)
      (by decide)⟩

/-- C7: when the caller frame cannot be resolved, the emitted line uses
the question-mark placeholder for both the function name and the file name
and minus one for the line number; no error reaches the caller (the
function is total) and the line is still formatted and written. -/
theorem printf_unresolved_caller (env : Env) (output : String)
    (bufList : List String) (lv : Level) (msg : String)
    (h : env.minPriority ≤ lv.priority) :
    printf env output bufList none lv msg =
      output ++ ("[" ++ lv.name ++ "]" ++ " " ++ "Go" ++
        resolveGoID bufList ++ ":" ++
        (if msg.length ≠ 0 then " " ++ msg else msg) ++ " " ++ "???" ++
        "()" ++ ":" ++ "???" ++ ":" ++ "-1" ++ " \x7bgit:" ++
        env.gitVersion ++ ", build:" ++ env.buildVersion ++ "\x7d" ++
        "\n") := by
  rw [printf, if_neg (not_lt.mpr h)]
  rfl

/-- Witness for C7. -/
theorem printf_unresolved_caller_witness :
    ((⟨0, "", ""⟩ : Env).minPriority ≤ levelWarn.priority) ∧
      printf ⟨0, "", ""⟩ "" [] none levelWarn "hi" =
        "" ++ ("[" ++ levelWarn.name ++ "]" ++ " " ++ "Go" ++
          resolveGoID [] ++ ":" ++
          (if ("hi" : String).length ≠ 0 then " " ++ "hi" else "hi") ++
          " " ++ "???" ++ "()" ++ ":" ++ "???" ++ ":" ++ "-1" ++
          " \x7bgit:" ++ (⟨0, "", ""⟩ : Env).gitVersion ++ ", build:" ++
          (⟨0, "", ""⟩ : Env).buildVersion ++ "\x7d" ++ "\n") :=
  ⟨by decide,
    printf_unresolved_caller ⟨0, "", ""⟩ "" [] levelWarn "hi" (by decide)⟩

/-- C8: with a resolved caller frame every emitted line is newline
terminated with the fixed shape: bracketed level name, space, the Go tag
immediately followed by the goroutine id, a colon, the message with a
single leading space exactly when the message is nonempty, the caller
segment, and the braced trailer holding the two build-identity strings
verbatim. -/
theorem printf_line_shape (env : Env) (output : String)
    (bufList : List String) (funcName file : String) (lineNo : Int)
    (lv : Level) (msg : String) (h : env.minPriority ≤ lv.priority) :
    printf env output bufList (some (funcName, file, lineNo)) lv msg =
      output ++ ("[" ++ lv.name ++ "]" ++ " " ++ "Go" ++
        resolveGoID bufList ++ ":" ++
        (if msg = "" then "" else " " ++ msg) ++ " " ++ funcName ++
        "()" ++ ":" ++ baseName file ++ ":" ++ toString lineNo ++
        " \x7bgit:" ++ env.gitVersion ++ ", build:" ++ env.buildVersion ++
        "\x7d" ++ "\n") := by
  rw [printf, if_neg (not_lt.mpr h)]
  refine congrArg (fun s => output ++ s) ?_
  have hm : (if msg.length ≠ 0 then " " ++ msg else msg) =
      (if msg = "" then "" else " " ++ msg) := by
    by_cases he : msg = ""
    · subst he
      decide
    · have hl : msg.length ≠ 0 := fun h0 =>
        he (String.ext (List.length_eq_zero.mp h0))
      simp [he, hl]
  apply String.ext
  simp [lineChunk, lineBody, resolveCaller, hm]

/-- Witness for C8 at a concrete resolved frame. -/
theorem printf_line_shape_witness :
    ((⟨0, "g", "b"⟩ : Env).minPriority ≤ levelError.priority) ∧
      printf ⟨0, "g", "b"⟩ "" ["goroutine", "7"]
          (some ("main.main", "/a/b.go", 42)) levelError "" =
        "" ++ ("[" ++ levelError.name ++ "]" ++ " " ++ "Go" ++
          resolveGoID ["goroutine", "7"] ++ ":" ++
          (if ("" : String) = "" then "" else " " ++ "") ++ " " ++
          "main.main" ++ "()" ++ ":" ++ baseName "/a/b.go" ++ ":" ++
          toString (42 : Int) ++ " \x7bgit:" ++
          (⟨0, "g", "b"⟩ : Env).gitVersion ++ ", build:" ++
          (⟨0, "g", "b"⟩ : Env).buildVersion ++ "\x7d" ++ "\n") :=
  ⟨by decide, printf_line_shape ⟨0, "g", "b"⟩ "" ["goroutine", "7"]
    "main.main" "/a/b.go" 42 levelError "" (by decide)⟩

end Logging
